import Mathlib

/-!
Shallow embedding of the qb query builder (src/qb.js, src/lib/select.js).

JavaScript objects used as string-keyed maps are modelled as association
lists (preserving insertion order, which `for..in` follows) or, for the
instance-level `this.definitions` registry that is only ever read by key,
as a function `String → Option TableDef`.  `undefined` is `Option.none`;
the JavaScript `a || b` idiom on strings treats the empty string as falsy
and is modelled by the `jsOr*` helpers.  Thrown exceptions are modelled
with `Except String`; engine-generated TypeErrors are modelled by fixed
messages (their exact wording varies by engine, but never contains the
table or column names involved).
-/

namespace Qb

/-- Canonical column definition after normalization (qb.js lines 95-124). -/
structure ColumnDef where
  name   : String
  as     : Option String
  hidden : Option Bool
deriving Repr, DecidableEq

/-- Canonical join definition after normalization (qb.js lines 129-157). -/
structure JoinDef where
  name       : String
  as         : Option String
  source_key : String
  target_key : String
  via        : Option String
deriving Repr, DecidableEq

/-- Canonical table definition after normalization. -/
structure TableDef where
  name        : String
  as          : Option String
  primary_key : Option String
  hidden      : Option Bool
  columns     : List ColumnDef
  joins       : List JoinDef
deriving Repr, DecidableEq

/-- A raw column entry in array form: a bare string or an object
(qb.js lines 95-107). -/
inductive RawCol where
  | str (name : String)
  | obj (name : String) (as : Option String) (hidden : Option Bool) (primaryKey : Bool)
deriving Repr, DecidableEq

/-- A raw column value in object-map form (qb.js lines 109-122): the value
may be null/undefined, a string alias, or an object. -/
inductive RawColVal where
  | nil
  | str (aliasName : String)
  | obj (as : Option String) (hidden : Option Bool) (primaryKey : Bool)
deriving Repr, DecidableEq

/-- `tableDef.columns` may be absent, an array, or an object map. -/
inductive RawColumns where
  | missing
  | arr (cols : List RawCol)
  | objm (cols : List (String × RawColVal))
deriving Repr, DecidableEq

/-- A raw join entry in array form (qb.js lines 129-142). -/
structure RawJoin where
  name       : String
  as         : Option String
  source_key : Option String
  target_key : Option String
  via        : Option String
deriving Repr, DecidableEq

/-- A raw join value in object-map form (qb.js lines 144-157); the target
table name is the key. -/
structure RawJoinVal where
  as         : Option String
  source_key : Option String
  target_key : Option String
  via        : Option String
deriving Repr, DecidableEq

/-- `tableDef.joins` may be absent, an array, or an object map. -/
inductive RawJoins where
  | missing
  | arr (joins : List RawJoin)
  | objm (joins : List (String × RawJoinVal))
deriving Repr, DecidableEq

/-- A raw user-supplied table definition (input of `normalize`).  A
user-supplied top-level `primary_key` persists unless a column flagged
`primary_key: true` overwrites it. -/
structure RawTableDef where
  as          : Option String
  hidden      : Option Bool
  primary_key : Option String
  columns     : RawColumns
  joins       : RawJoins
deriving Repr, DecidableEq

/-- JS `String.prototype.toUpperCase` on the ASCII fragment (kernel-reducible
replacement for `String.toUpper`). -/
def jsUpper (s : String) : String := ⟨s.data.map Char.toUpper⟩

/-- JS `String.prototype.toLowerCase` on the ASCII fragment. -/
def jsLower (s : String) : String := ⟨s.data.map Char.toLower⟩

/-- Decidable equality for `Except` results (used to evaluate the model on
concrete inputs). -/
instance {e a : Type} [DecidableEq e] [DecidableEq a] : DecidableEq (Except e a) := fun x y =>
  match x, y with
  | .ok u, .ok v => if h : u = v then isTrue (by rw [h]) else isFalse (by simp [h])
  | .error u, .error v => if h : u = v then isTrue (by rw [h]) else isFalse (by simp [h])
  | .ok _, .error _ => isFalse (by simp)
  | .error _, .ok _ => isFalse (by simp)

/-- JS `a || b` on an optional string: `undefined` and `""` are falsy. -/
def jsOrs (a b : Option String) : Option String :=
  match a with
  | some s => if s = "" then b else some s
  | none   => b

/-- JS `a || d` with a string default. -/
def jsGetS (a : Option String) (d : String) : String :=
  match a with
  | some s => if s = "" then d else s
  | none   => d

/-- JS `a || b || d` (used for source/target key defaulting). -/
def jsGetS2 (a b : Option String) (d : String) : String :=
  jsGetS (jsOrs a b) d

/-- JS object assignment `m[k] = v`: replace in place if the key exists,
else append (keys keep their first-insertion position). -/
def upsertCol (cols : List ColumnDef) (c : ColumnDef) : List ColumnDef :=
  if cols.any (fun x => x.name = c.name) then
    cols.map (fun x => if x.name = c.name then c else x)
  else cols ++ [c]

/-- Same upsert for join maps. -/
def upsertJoin (joins : List JoinDef) (j : JoinDef) : List JoinDef :=
  if joins.any (fun x => x.name = j.name) then
    joins.map (fun x => if x.name = j.name then j else x)
  else joins ++ [j]

/-- Normalize one raw column entry (array form) into the accumulating
column map and primary-key candidate. -/
def normColArr (acc : List ColumnDef × Option String) (c : RawCol) :
    List ColumnDef × Option String :=
  match c with
  | .str n => (upsertCol acc.1 ⟨n, none, none⟩, acc.2)
  | .obj n a h pk =>
      (upsertCol acc.1 ⟨n, a, h⟩, if pk then some n else acc.2)

/-- Normalize one raw column entry (object-map form).  A null value or a
string alias means `{name, as: value || undefined}`; an object may carry
`as`, `hidden` and the `primary_key` flag. -/
def normColObj (acc : List ColumnDef × Option String) (e : String × RawColVal) :
    List ColumnDef × Option String :=
  match e.2 with
  | .nil => (upsertCol acc.1 ⟨e.1, none, none⟩, acc.2)
  | .str a => (upsertCol acc.1 ⟨e.1, if a = "" then none else some a, none⟩, acc.2)
  | .obj a h pk =>
      (upsertCol acc.1 ⟨e.1, a, h⟩, if pk then some e.1 else acc.2)

/-- Normalize the `columns` declaration of a table, producing the canonical
column map and the table's primary key (a column flagged `primary_key: true`
overwrites any raw top-level `primary_key`). -/
def normColumns (cols : RawColumns) (pk0 : Option String) :
    List ColumnDef × Option String :=
  match cols with
  | .missing => ([], pk0)
  | .arr l => l.foldl normColArr ([], pk0)
  | .objm l => l.foldl normColObj ([], pk0)

/-- Both join-declaration forms (array and object map) run the same body;
the object-map form supplies the target table name as the key. -/
def rawJoinList : RawJoins → List RawJoin
  | .missing => []
  | .arr l => l
  | .objm l => l.map (fun e => ⟨e.1, e.2.as, e.2.source_key, e.2.target_key, e.2.via⟩)

/-- The configuration error thrown for a join onto an undefined table
(qb.js lines 133 and 149). -/
def joinErrMsg (t j : String) : String :=
  "Table " ++ t ++ " joined on undefined table " ++ j ++ "."

/-- Normalize one raw join entry for table `t`.  `keyExists` says whether a
name is a key of the raw definitions mapping; `pkOf` reads the (possibly
not-yet-computed) `primary_key` of another table at this moment of the
normalization pass; `ownPk` is the just-computed primary key of `t`. -/
def normJoinEntry (t : String) (keyExists : String → Bool)
    (pkOf : String → Option String) (ownPk : Option String) (j : RawJoin) :
    Except String JoinDef :=
  if keyExists j.name then
    .ok { name := j.name, as := j.as,
          source_key := jsGetS2 j.source_key ownPk "id",
          target_key := jsGetS2 j.target_key (pkOf j.name) "id",
          via := j.via }
  else
    .error (joinErrMsg t j.name)

/-- The join normalization loop of one table: each entry is validated and
upserted into the accumulating join map. -/
def normJoins (t : String) (keyExists : String → Bool)
    (pkOf : String → Option String) (ownPk : Option String)
    (l : List RawJoin) : Except String (List JoinDef) :=
  l.foldlM (fun acc j => do
    let jd ← normJoinEntry t keyExists pkOf ownPk j
    pure (upsertJoin acc jd)) []

/-- The `primary_key` visible on table `n` while table `t` is being
normalized: already-processed tables (and `t` itself, whose columns were
just normalized) show their computed key, later tables only their raw one. -/
def pkVisible (rawAll : List (String × RawTableDef))
    (processed : List (String × TableDef)) (t : String)
    (ownPk : Option String) (n : String) : Option String :=
  match processed.find? (fun e => e.1 = n) with
  | some p => p.2.primary_key
  | none =>
      if n = t then ownPk
      else ((rawAll.find? (fun e => e.1 = n)).map (fun e => e.2.primary_key)).join

/-- Normalize one table.  `rawAll` is the whole input mapping (for the
join-target existence check); `processed` holds the tables already
normalized in place before this one. -/
def normTable (rawAll : List (String × RawTableDef))
    (processed : List (String × TableDef)) (t : String) (rd : RawTableDef) :
    Except String TableDef :=
  let cp := normColumns rd.columns rd.primary_key
  match normJoins t (fun n => rawAll.any (fun e => e.1 = n))
      (pkVisible rawAll processed t cp.2) cp.2 (rawJoinList rd.joins) with
  | .error e => .error e
  | .ok joins =>
      .ok { name := t, as := rd.as, primary_key := cp.2, hidden := rd.hidden,
            columns := cp.1, joins := joins }

/-- The `for tableName in definitions` loop of `normalize` (qb.js 82-164):
tables are normalized in insertion order, mutating the mapping in place, so
a table's join targets see computed primary keys only for tables that come
no later than it. -/
def normalizeGo (rawAll : List (String × RawTableDef)) :
    List (String × RawTableDef) → List (String × TableDef) →
    Except String (List (String × TableDef))
  | [], acc => .ok acc
  | (t, rd) :: rest, acc =>
      match normTable rawAll acc t rd with
      | .error e => .error e
      | .ok td => normalizeGo rawAll rest (acc ++ [(t, td)])

/-- `Qb.prototype.normalize`. -/
def normalizeDefs (raw : List (String × RawTableDef)) :
    Except String (List (String × TableDef)) :=
  normalizeGo raw raw []

/-- One entry of the derived public schema (qb.js 174-203). -/
structure TableSchema where
  name    : String
  as      : Option String
  columns : List ColumnDef
  joins   : List JoinDef
deriving Repr, DecidableEq

/-- JS truthiness of the `hidden` attribute (modelled as a boolean). -/
def isHiddenTrue (h : Option Bool) : Bool := h == some true

/-- `definitions[name].hidden` during `buildSchema`; the name always exists
for normalize outputs, so the `none` branch is unreachable there. -/
def hiddenOf (nd : List (String × TableDef)) (n : String) : Bool :=
  match nd.find? (fun e => e.1 = n) with
  | some p => isHiddenTrue p.2.hidden
  | none => false

/-- `Qb.prototype.buildSchema`: for each non-hidden table push a public
view dropping hidden columns and joins onto hidden tables. -/
def buildSchema (nd : List (String × TableDef)) : List TableSchema :=
  (nd.filter (fun p => !(isHiddenTrue p.2.hidden))).map (fun p =>
    { name := p.2.name, as := p.2.as,
      columns := p.2.columns.filter (fun c => !(c.hidden == some true)),
      joins := p.2.joins.filter (fun j => !(hiddenOf nd j.name)) })

/-- Instance state.  `definitions` models `this.definitions` (only ever
read by key lookup); on a successful `define`, `this.models` carries
exactly the same keys, so one map models both registries.  `schema`
models the `this.schema` array, which `buildSchema` pushes onto. -/
structure QbState where
  definitions : String → Option TableDef
  schema : List TableSchema

/-- A fresh `new Qb()` instance. -/
def emptyQb : QbState := ⟨fun _ => none, []⟩

/-- Last-write-wins lookup over a normalized definitions list: the closed
form of the per-table assignments `this.definitions[tableName] = tableDef`. -/
def lookupLast (nd : List (String × TableDef)) (k : String) : Option TableDef :=
  (nd.reverse.find? (fun e => e.1 = k)).map (fun e => e.2)

/-- `Qb.prototype.define`: normalize, register models/definitions, and
append the derived public schema to `this.schema`. -/
def defineQb (st : QbState) (raw : List (String × RawTableDef)) :
    Except String QbState :=
  match normalizeDefs raw with
  | .error e => .error e
  | .ok nd =>
      .ok { definitions := fun k => (lookupLast nd k) <|> st.definitions k,
            schema := st.schema ++ buildSchema nd }

/-! ## Query-time machinery (qb.js 208-430) -/

/-- An aliased table handle, `this.models[name].as(alias)`; `als = none`
models `.as(undefined)` (the table is then referred to by its bare name). -/
structure Model where
  table : String
  als   : Option String
deriving Repr, DecidableEq

/-- One canonical entry of `spec.joins` after `querySetup`'s whitelist
pick; `model` is attached later by the join phase. -/
structure JoinEntry where
  id     : Option String
  name   : String
  as     : Option String
  joinId : Option String
  model  : Option Model
deriving Repr, DecidableEq

/-- One entry of the `names` alias-usage array (qb.js line 291). -/
structure NameEntry where
  cand : String
  used : Nat
deriving Repr, DecidableEq

/-- An equality join predicate `sourceModel[sourceKey] = joinModel[targetKey]`. -/
structure Pred where
  srcModel : Model
  srcKey   : String
  tgtModel : Model
  tgtKey   : String
deriving Repr, DecidableEq

/-- The node-sql join chain: `from(joins)` where each `.join(model).on(p)`
adds one predicate edge to the left-deep tree. -/
inductive JoinTree where
  | base (m : Model)
  | join (l : JoinTree) (m : Model) (p : Pred)
deriving Repr, DecidableEq

/-- Number of predicate edges (JOIN clauses) in the tree. -/
def edgeCount : JoinTree → Nat
  | .base _ => 0
  | .join l _ _ => edgeCount l + 1

/-- A composed column expression.  Function entries in the modelled
fragment are plain strings, so `funcDef(selection)` always applies the
(upper-cased) function to the single expression argument. -/
inductive SqlExpr where
  | col (m : Model) (name : String)
  | lit (s : String)
  | app (fname : String) (arg : SqlExpr)
deriving Repr, DecidableEq

/-- Underscore `_.findWhere(list, { id: jid })` matching: an entry matches
only when both sides carry the same defined id (`{id: undefined}` never
matches entries produced by the whitelist pick, which drop absent keys). -/
def matchesId (jid eid : Option String) : Bool :=
  match jid, eid with
  | some a, some b => a = b
  | _, _ => false

/-- `_.findWhere(spec.joins, { id: x }) || spec.joins[0]` — the shared
lookup used by `joinOnce` (qb.js 315) and `select` (qb.js 389): an
unmatched or absent id falls back silently to the root join node. -/
def resolveSourceJoin (joins : List JoinEntry) (jid : Option String) :
    Option JoinEntry :=
  (joins.find? (fun e => matchesId jid e.id)) <|> joins.head?

/-- Engine TypeError raised by `spec.joins[0].name` on an empty list. -/
def typeErrName : String :=
  "TypeError: Cannot read properties of undefined (reading name)"

/-- Engine TypeError raised by `this.models[from].select` when the FROM
table was never defined. -/
def typeErrSelect : String :=
  "TypeError: Cannot read properties of undefined (reading select)"

/-- Engine TypeError raised by `sourceDef.joins[...]` when the source
table has no definition. -/
def typeErrJoins : String :=
  "TypeError: Cannot read properties of undefined (reading joins)"

/-- Engine TypeError raised by `sourceDef.joins[join.name].via` when the
source table has no JoinDef for the target (qb.js line 322).  The exact
wording varies by engine but never contains the table names. -/
def typeErrVia : String :=
  "TypeError: Cannot read properties of undefined (reading via)"

/-- Engine TypeError raised by `joinDef.as` when the joined table has no
definition. -/
def typeErrAs : String :=
  "TypeError: Cannot read properties of undefined (reading as)"

/-- Engine TypeError raised by `sourceJoin.model[sourceKey]` when the
source entry's model handle was never attached. -/
def typeErrSrcModel : String :=
  "TypeError: Cannot read properties of undefined (reading model)"

/-- Engine TypeError raised by `.equals` when a join key resolves to
undefined (both explicit key and primary key missing/empty). -/
def typeErrEquals : String :=
  "TypeError: Cannot read properties of undefined (reading equals)"

/-- Engine TypeError raised by `that.definitions[join.name].columns` when
the owning join's table has no definition. -/
def typeErrColumns : String :=
  "TypeError: Cannot read properties of undefined (reading columns)"

/-- Engine TypeError raised by `join.model[def.name]` when the owning
join entry carries no model handle. -/
def typeErrColRef : String :=
  "TypeError: Cannot read properties of undefined (reading column)"

/-- Modelled JS call-stack exhaustion (a cyclic `via` chain recurses
forever in the source; the model runs out of fuel instead). -/
def stackOverflowErr : String := "RangeError: Maximum call stack size exceeded"

/-- `_.findWhere(names, { alias: cand })` followed by `++named.used`:
bump the usage count of `cand` in place and report the new count, or
report `none` when the candidate is fresh. -/
def bumpName : List NameEntry → String → (List NameEntry × Option Nat)
  | [], _ => ([], none)
  | e :: rest, c =>
      if e.cand = c then ({ e with used := e.used + 1 } :: rest, some (e.used + 1))
      else
        let r := bumpName rest c
        (e :: r.1, r.2)

/-- `joinOnce` (qb.js 310-377).  State threaded explicitly: the current
`spec.joins` list (read for source lookup; the processed entry is returned
updated), the join tree, the alias-usage `names` array and the `_.uniqueId`
counter.  In the `via` branch the source mutates `join.joinId` before
recursing; the first recursive call only reads entries' `id`/`name`/`model`
fields, so passing the not-yet-updated list is observationally equal. -/
def joinOnce (defs : String → Option TableDef) :
    Nat → List JoinEntry → JoinEntry → JoinTree → List NameEntry → Nat →
    Except String (JoinEntry × JoinTree × List NameEntry × Nat)
  | 0, _, _, _, _, _ => .error stackOverflowErr
  | fuel + 1, specJoins, j, tree, names, ctr =>
    match resolveSourceJoin specJoins j.joinId with
    | none => .error typeErrName
    | some sourceJoin =>
      match defs sourceJoin.name with
      | none => .error typeErrJoins
      | some sourceDef =>
        match sourceDef.joins.find? (fun d => d.name = j.name) with
        | none => .error typeErrVia
        | some jdef =>
          match jdef.via with
          | some intermediate =>
              let viaId := "_via_" ++ Nat.repr (ctr + 1)
              let joinVia : JoinEntry := ⟨some viaId, intermediate, none, j.joinId, none⟩
              let j' := { j with joinId := some viaId }
              do
                let r1 ← joinOnce defs fuel specJoins joinVia tree names (ctr + 1)
                joinOnce defs fuel [r1.1] j' r1.2.1 r1.2.2.1 r1.2.2.2
          | none =>
              match defs j.name with
              | none => .error typeErrAs
              | some joinDef =>
                let joinAlias0 := jsOrs j.as joinDef.as
                let cand := jsGetS joinAlias0 j.name
                let bn := bumpName names cand
                let finalAlias : Option String :=
                  match bn.2 with
                  | some newUsed => some (cand ++ "_" ++ Nat.repr newUsed)
                  | none => joinAlias0
                let names' :=
                  match bn.2 with
                  | some _ => bn.1
                  | none => names ++ [⟨cand, 1⟩]
                let model : Model := ⟨j.name, finalAlias⟩
                match sourceJoin.model with
                | none => .error typeErrSrcModel
                | some sm =>
                  match jsOrs (some jdef.source_key) sourceDef.primary_key,
                        jsOrs (some jdef.target_key) joinDef.primary_key with
                  | some sk, some tk =>
                      .ok ({ j with model := some model },
                           .join tree model ⟨sm, sk, model, tk⟩, names', ctr)
                  | _, _ => .error typeErrEquals

/-- The `for (var i=1; ...)` loop of `join` (qb.js 299-302): each entry is
resolved against the current list and written back in place. -/
def joinLoop (defs : String → Option TableDef) (fuel : Nat) :
    List JoinEntry → List JoinEntry → JoinTree → List NameEntry → Nat →
    Except String (List JoinEntry × JoinTree × List NameEntry × Nat)
  | done, [], tree, ns, c => .ok (done, tree, ns, c)
  | done, j :: rest, tree, ns, c => do
      let r ← joinOnce defs fuel (done ++ j :: rest) j tree ns c
      joinLoop defs fuel (done ++ [r.1]) rest r.2.1 r.2.2.1 r.2.2.2

/-- `join` (qb.js 279-305): resolve the FROM table, seed the alias-usage
array, attach the root model to `spec.joins[0]`, then run the loop. -/
def runJoins (defs : String → Option TableDef) (fuel : Nat)
    (joins : List JoinEntry) :
    Except String (List JoinEntry × JoinTree × List NameEntry × Nat) :=
  match joins with
  | [] => .error typeErrName
  | j0 :: rest =>
      match defs j0.name with
      | none => .error typeErrAs
      | some d0 =>
          let alias0 := jsOrs j0.as d0.as
          let m0 : Model := ⟨j0.name, alias0⟩
          let j0' := { j0 with model := some m0 }
          joinLoop defs fuel [j0'] rest (.base m0) [⟨jsGetS alias0 j0.name, 1⟩] 0

/-- One canonical entry of `spec.selects` after `querySetup`. -/
structure SelectEntry where
  name      : String
  joinId    : Option String
  as        : Option String
  functions : Option (List String)
deriving Repr, DecidableEq

/-- A select entry as left in the caller's spec after `select` ran:
`select.functions = select.functions || []` filled the default and
`.reverse()` reversed the array in place. -/
structure SelectEntryAfter where
  name      : String
  joinId    : Option String
  as        : Option String
  functions : List String
deriving Repr, DecidableEq

/-- JS truthiness of the final `alias` before `selection.as(alias)`:
an empty string is falsy, so no alias is applied. -/
def jsTruthyOpt (a : Option String) : Option String :=
  match a with
  | some s => if s = "" then none else some s
  | none => none

/-- One iteration of `select` (qb.js 384-429): resolve the owning join
node, resolve the column, apply the (reversed) function chain, derive the
alias.  The `if (!selection)` throw at qb.js 396 is unreachable because
the sql model is built from the very same column map. -/
def runSelectOne (defs : String → Option TableDef) (specJoins : List JoinEntry)
    (sel : SelectEntry) :
    Except String ((SqlExpr × Option String) × SelectEntryAfter) :=
  match resolveSourceJoin specJoins sel.joinId with
  | none => .error typeErrName
  | some j =>
    match defs j.name with
    | none => .error typeErrColumns
    | some td =>
      match td.columns.find? (fun c => c.name = sel.name) with
      | none =>
          .error ("Column \"" ++ sel.name ++ "\" not defined in \"" ++ j.name ++ "\".")
      | some cdef =>
        match j.model with
        | none => .error typeErrColRef
        | some m =>
          let fs := (sel.functions.getD []).reverse
          let step := fun (acc : SqlExpr × Option String) (f : String) =>
            let fname := jsUpper f
            (SqlExpr.app fname acc.1,
             some (jsGetS acc.2 sel.name ++ "_" ++ jsLower fname))
          let r := fs.foldl step (SqlExpr.col m cdef.name, cdef.as)
          .ok ((r.1, jsTruthyOpt (jsOrs sel.as r.2)), ⟨sel.name, sel.joinId, sel.as, fs⟩)

/-- `select` (qb.js 382-430) over the whole select list. -/
def runSelects (defs : String → Option TableDef) (specJoins : List JoinEntry) :
    List SelectEntry →
    Except String (List (SqlExpr × Option String) × List SelectEntryAfter)
  | [] => .ok ([], [])
  | s :: rest => do
      let r ← runSelectOne defs specJoins s
      let rs ← runSelects defs specJoins rest
      .ok (r.1 :: rs.1, r.2 :: rs.2)

/-- A declared `functions` value: a bare string or an ordered list. -/
inductive FnDecl where
  | fstr (s : String)
  | flist (l : List String)
deriving Repr, DecidableEq

/-- A raw `spec.selects` element: bare string or object (whitelisted keys). -/
inductive RawSelItem where
  | str (s : String)
  | obj (name : String) (joinId : Option String) (as : Option String)
        (functions : Option FnDecl)
deriving Repr, DecidableEq

/-- `spec.selects` may be a bare string or an array. -/
inductive RawSelects where
  | str (s : String)
  | arr (l : List RawSelItem)
deriving Repr, DecidableEq

/-- A raw `spec.joins` element: bare string or object (whitelisted keys). -/
inductive RawJoinItem where
  | str (s : String)
  | obj (id : Option String) (name : String) (as : Option String)
        (joinId : Option String)
deriving Repr, DecidableEq

/-- `spec.joins` may be a bare string or an array. -/
inductive RawJoinsSpec where
  | str (s : String)
  | arr (l : List RawJoinItem)
deriving Repr, DecidableEq

/-- `spec.from` may be a bare string or an object. -/
inductive RawFrom where
  | str (s : String)
  | obj (e : RawJoinItem)
deriving Repr, DecidableEq

/-- The loosely-shaped argument of `query()`.  `selectSing`, `joinSing`,
`whereSing`, `groupSing` model the alternate singular keys `select`,
`join`, `where`, `group`; `fromSpec` models the `from` key; `extra` models
any other (non-whitelisted) keys, which `querySetup` deletes. -/
structure RawSpec where
  selects    : Option RawSelects
  selectSing : Option RawSelects
  joins      : Option RawJoinsSpec
  joinSing   : Option RawJoinsSpec
  wheres     : Option (List Unit)
  whereSing  : Option (List Unit)
  groups     : Option (List Unit)
  groupSing  : Option (List Unit)
  fromSpec   : Option RawFrom
  extra      : List String
deriving Repr, DecidableEq

/-- The canonical spec after `querySetup`: only the whitelisted keys
`selects`, `joins`, `wheres`, `groups` survive. -/
structure CanonSpec where
  selects : List SelectEntry
  joins   : List JoinEntry
  wheres  : List Unit
  groups  : List Unit
deriving Repr, DecidableEq

/-- JS `spec.selects || spec.select`: an empty-string value is falsy (an
empty array is truthy). -/
def jsOrSelects (a b : Option RawSelects) : Option RawSelects :=
  match a with
  | some (.str s) => if s = "" then b else some (.str s)
  | some x => some x
  | none => b

/-- JS `spec.joins || spec.join` with the same truthiness. -/
def jsOrJoins (a b : Option RawJoinsSpec) : Option RawJoinsSpec :=
  match a with
  | some (.str s) => if s = "" then b else some (.str s)
  | some x => some x
  | none => b

/-- Whitelist pick of one select element (qb.js 255-261). -/
def canonSelItem : RawSelItem → SelectEntry
  | .str s => ⟨s, none, none, none⟩
  | .obj n j a f =>
      ⟨n, j, a,
       match f with
       | none => none
       | some (.fstr s) => some [s]
       | some (.flist l) => some l⟩

/-- Whitelist pick of one join element (qb.js 263-267). -/
def canonJoinItem : RawJoinItem → JoinEntry
  | .str s => ⟨none, s, none, none, none⟩
  | .obj i n a j => ⟨i, n, a, j, none⟩

/-- `querySetup` (qb.js 236-274): alternate keys, string shorthands, the
`from` unshift, the per-entry whitelist picks, and the top-level whitelist
(every other key — modelled by `extra` and `fromSpec` — is deleted).  The
`"Query" called without parameters` throw for a missing spec is outside
the model, since a `RawSpec` value is always supplied. -/
def querySetup (spec : RawSpec) : CanonSpec :=
  let selsRaw := jsOrSelects spec.selects spec.selectSing
  let joinsRaw := jsOrJoins spec.joins spec.joinSing
  let selsList : List RawSelItem :=
    match selsRaw with
    | none => []
    | some (.str s) => [.str s]
    | some (.arr l) => l
  let joins0 : List RawJoinItem :=
    match joinsRaw with
    | none => []
    | some (.str s) => [.str s]
    | some (.arr l) => l
  let fromE : List RawJoinItem :=
    match spec.fromSpec with
    | none => []
    | some (.str s) => [.str s]
    | some (.obj e) => [e]
  { selects := selsList.map canonSelItem,
    joins := (fromE ++ joins0).map canonJoinItem,
    wheres := (spec.wheres <|> spec.whereSing).getD [],
    groups := (spec.groups <|> spec.groupSing).getD [] }

/-- What the caller's spec object holds after `query()` returned: only the
whitelisted keys, `from` merged into `joins`, models attached to join
entries, each select's `functions` array reversed in place. -/
structure SpecAfter where
  selects : List SelectEntryAfter
  joins   : List JoinEntry
  wheres  : List Unit
  groups  : List Unit
deriving Repr, DecidableEq

/-- The package handed to the rendering collaborator: the ordered
(expression, alias) projection list and the join tree. -/
structure QueryResult where
  selections : List (SqlExpr × Option String)
  tree       : JoinTree
deriving Repr, DecidableEq

/-- `Qb.prototype.query` (qb.js 208-228): querySetup, then the join
phase, then the select phase.  `fuel` bounds the `via` recursion depth
(the source recurses unboundedly on cyclic `via` chains). -/
def queryRun (st : QbState) (fuel : Nat) (spec : RawSpec) :
    Except String (QueryResult × SpecAfter) := do
  let canon := querySetup spec
  match canon.joins with
  | [] => .error typeErrName
  | j0 :: rest =>
    match st.definitions j0.name with
    | none => .error typeErrSelect
    | some _ => do
      let rj ← runJoins st.definitions fuel (j0 :: rest)
      let rs ← runSelects st.definitions rj.1 canon.selects
      .ok (⟨rs.1, rj.2.1⟩, ⟨rs.2, rj.1, canon.wheres, canon.groups⟩)

/-- Re-submitting a mutated select entry: the whitelist pick keeps the
(now reversed) `functions` array. -/
def selAfterToRaw (s : SelectEntryAfter) : RawSelItem :=
  .obj s.name s.joinId s.as (some (.flist s.functions))

/-- Re-submitting a mutated join entry: the whitelist pick drops the
attached `model` but keeps the (possibly rewritten) `joinId`. -/
def joinEntryToRaw (j : JoinEntry) : RawJoinItem :=
  .obj j.id j.name j.as j.joinId

/-- The caller's spec object, as left behind by a `query()` call, viewed
again as input for a second call (`from` and all extra keys are gone). -/
def specAfterToRaw (sp : SpecAfter) : RawSpec :=
  ⟨some (.arr (sp.selects.map selAfterToRaw)), none,
   some (.arr (sp.joins.map joinEntryToRaw)), none,
   some sp.wheres, none, some sp.groups, none, none, []⟩

/-! ## The `SelectSpec` variant of src/lib/select.js

This module adds literal-`value` support and `on`/`table` owner lookup to
select resolution.  Its `Collection.findWhere` behaves like underscore's
`findWhere` over the join entries. -/

/-- A JS value carried by a SelectSpec's `value` property.  `num` models a
finite number (the claims only exercise integers), `str` a string, and
`other` any other defined value (null, booleans, NaN, ...) for which both
`_.isFinite` and `_.isString` are false. -/
inductive JsLit where
  | num (n : Int)
  | str (s : String)
  | other
deriving Repr, DecidableEq

/-- Non-empty all-digit character list. -/
def isDigits (l : List Char) : Bool := !l.isEmpty && l.all (fun c => c.isDigit)

/-- An integer-form decimal string (optional leading minus sign). -/
def jsNumericStr (s : String) : Bool :=
  match s.data with
  | '-' :: rest => isDigits rest
  | l => isDigits l

/-- Underscore `_.isFinite(v)` = `isFinite(v) && !isNaN(parseFloat(v))`:
true for finite numbers and for strings parsing as numbers.  String
parsing is modelled for integer-form decimal strings; fractional or
padded numeric strings are outside the modelled fragment. -/
def jsIsFiniteLit : JsLit → Bool
  | .num _ => true
  | .str s => jsNumericStr s
  | .other => false

/-- The raw text embedded by `join.model.literal(this.value)` (the value
is passed through verbatim, numbers printed in decimal). -/
def litText : JsLit → String
  | .num n => toString n
  | .str s => s
  | .other => ""

/-- A `SelectSpec` instance (lib/select.js 22-32) after its constructor
normalized string shorthands; only the whitelisted properties matter
here.  `name` may be absent for pure literal selections. -/
structure LSelectSpec where
  name      : Option String
  joinId    : Option String
  onK       : Option String
  table     : Option String
  as        : Option String
  value     : Option JsLit
  functions : List String
deriving Repr, DecidableEq

/-- The owning-join lookup of `SelectSpec.prototype.toSQL` (lib/select.js
43-47): by truthy `joinId`, else by `on` name, else by `table` name, else
the first join.  Unlike qb.js there is no `|| first` fallback after a
failed keyed lookup. -/
def lSelectJoin (joins : List JoinEntry) (sel : LSelectSpec) : Option JoinEntry :=
  match jsTruthyOpt sel.joinId with
  | some _ => joins.find? (fun e => matchesId sel.joinId e.id)
  | none =>
    match jsTruthyOpt sel.onK with
    | some onName => joins.find? (fun e => e.name = onName)
    | none =>
      match jsTruthyOpt sel.table with
      | some t => joins.find? (fun e => e.name = t)
      | none => joins.head?

/-- The column-not-found message of lib/select.js line 52; an absent
`name` interpolates as the text `undefined`. -/
def lColErrMsg (n : Option String) (t : String) : String :=
  "Column \"" ++ n.getD "undefined" ++ "\" not defined in \"" ++ t ++ "\"."

/-- The shared tail of `toSQL`: the reversed function-chain application
with its alias suffixing (lib/select.js 73-96, base name falling back to
`col`), then the explicit `as` override and the truthiness check before
`.as(alias)` (lib/select.js 101-102). -/
def lFinish (sel : LSelectSpec) (base : SqlExpr) (alias0 : Option String)
    (ignoreAlias : Bool) : SqlExpr × Option String :=
  let step := fun (acc : SqlExpr × Option String) (f : String) =>
    let fname := jsUpper f
    (SqlExpr.app fname acc.1,
     some (jsGetS (jsOrs acc.2 sel.name) "col" ++ "_" ++ jsLower fname))
  let r := sel.functions.reverse.foldl step (base, alias0)
  let fin := jsTruthyOpt (jsOrs sel.as r.2)
  (r.1, if ignoreAlias then none else fin)

/-- `SelectSpec.prototype.toSQL` (lib/select.js 36-106).  Returns the
composed selection together with the alias applied by `.as(...)` (none
when the final alias is falsy or `ignoreAlias` is set). -/
def lToSQL (defs : String → Option TableDef) (joins : List JoinEntry)
    (sel : LSelectSpec) (ignoreAlias : Bool) :
    Except String (SqlExpr × Option String) :=
  match lSelectJoin joins sel with
  | none => .error typeErrName
  | some j =>
    match defs j.name with
    | none => .error typeErrColumns
    | some td =>
      let cdef := sel.name.bind (fun n => td.columns.find? (fun c => c.name = n))
      match cdef with
      | none =>
        match sel.value with
        | none => .error (lColErrMsg sel.name j.name)
        | some v =>
          if jsIsFiniteLit v then
            .ok (lFinish sel (SqlExpr.lit (litText v)) none ignoreAlias)
          else
            match v with
            | .str s => .ok (lFinish sel (SqlExpr.lit ("\x27" ++ s ++ "\x27")) none ignoreAlias)
            | _ => .error typeErrName
      | some c =>
        match j.model with
        | none => .error (lColErrMsg (some c.name) j.name)
        | some m => .ok (lFinish sel (SqlExpr.col m c.name) c.as ignoreAlias)

/-! ## Concrete fixtures used by the claim theorems -/

/-- C1 schema: a single table `orders(amount)`. -/
def c1defs : List (String × RawTableDef) :=
  [("orders", ⟨none, none, none, .arr [.str "amount"], .missing⟩)]

/-- C1 configured instance. -/
def c1state : QbState := (defineQb emptyQb c1defs).toOption.getD emptyQb

/-- C1 query: select `amount` with declared functions `[SUM, ROUND]`
(outer-to-inner) and no explicit alias. -/
def c1spec : RawSpec :=
  ⟨some (.arr [.obj "amount" none none (some (.flist ["SUM", "ROUND"]))]), none,
   none, none, none, none, none, none, some (.str "orders"), []⟩

/-- C2 chained-via schema: `A` joins `C` via `B`, joins `B` via `D`, and
joins `D` directly; `D` joins `B`; `B` joins `C`. -/
def c2defs : List (String × RawTableDef) :=
  [("A", ⟨none, none, none, .arr [.str "id"],
     .arr [⟨"C", none, none, none, some "B"⟩,
           ⟨"B", none, none, none, some "D"⟩,
           ⟨"D", none, none, none, none⟩]⟩),
   ("B", ⟨none, none, none, .arr [.str "id"], .arr [⟨"C", none, none, none, none⟩]⟩),
   ("C", ⟨none, none, none, .arr [.str "id"], .missing⟩),
   ("D", ⟨none, none, none, .arr [.str "id"], .arr [⟨"B", none, none, none, none⟩]⟩)]

/-- C2 configured instance (chained intermediates). -/
def c2state : QbState := (defineQb emptyQb c2defs).toOption.getD emptyQb

/-- C2 query: FROM `A`, join `C` (whose JoinDef declares `via: B`). -/
def c2spec : RawSpec :=
  ⟨none, none, some (.arr [.str "C"]), none, none, none, none, none,
   some (.str "A"), []⟩

/-- C3 schema: `R` joins `T` and `U` directly. -/
def c3defs : List (String × RawTableDef) :=
  [("R", ⟨none, none, none, .missing,
     .arr [⟨"T", none, none, none, none⟩, ⟨"U", none, none, none, none⟩]⟩),
   ("T", ⟨none, none, none, .missing, .missing⟩),
   ("U", ⟨none, none, none, .missing, .missing⟩)]

/-- C3 configured instance. -/
def c3state : QbState := (defineQb emptyQb c3defs).toOption.getD emptyQb

/-- C3 query: `T` is resolved twice with candidate alias `X`, but another
table (`U`) uses the same candidate in between. -/
def c3spec : RawSpec :=
  ⟨none, none,
   some (.arr [.obj none "T" (some "X") none,
               .obj none "U" (some "X") none,
               .obj none "T" (some "X") none]),
   none, none, none, none, none, some (.str "R"), []⟩

/-- C4 schema: one public table. -/
def c4defs : List (String × RawTableDef) :=
  [("orders", ⟨none, none, none, .arr [.str "amount"], .missing⟩)]

/-- C4: the normalized form of `c4defs` (what `normalize` returns). -/
def c4nd : List (String × TableDef) :=
  [("orders", ⟨"orders", none, none, none, [⟨"amount", none, none⟩], []⟩)]

/-- C5 table `A`: column `id`, join to `B` with no explicit keys. -/
def c5defA : RawTableDef :=
  ⟨none, none, none, .arr [.str "id"], .arr [⟨"B", none, none, none, none⟩]⟩

/-- C5 table `B`: primary key `bid` declared via a column flag. -/
def c5defB : RawTableDef :=
  ⟨none, none, none, .arr [.obj "bid" none none true], .missing⟩

/-- C5 instance configured with `A` before `B` in the mapping. -/
def c5stateAB : QbState :=
  (defineQb emptyQb [("A", c5defA), ("B", c5defB)]).toOption.getD emptyQb

/-- C5 instance configured with `B` before `A` in the mapping. -/
def c5stateBA : QbState :=
  (defineQb emptyQb [("B", c5defB), ("A", c5defA)]).toOption.getD emptyQb

/-- C5 query: FROM `A`, join `B`. -/
def c5spec : RawSpec :=
  ⟨none, none, some (.arr [.str "B"]), none, none, none, none, none,
   some (.str "A"), []⟩

/-- C6 schema: `posts` and `users` defined, but `posts` declares no joins. -/
def c6defs : List (String × RawTableDef) :=
  [("posts", ⟨none, none, none, .arr [.str "id"], .missing⟩),
   ("users", ⟨none, none, none, .arr [.str "id"], .missing⟩)]

/-- C6 configured instance. -/
def c6state : QbState := (defineQb emptyQb c6defs).toOption.getD emptyQb

/-- C6 query: FROM `posts`, join `users` — but `posts` has no JoinDef for
`users`. -/
def c6spec : RawSpec :=
  ⟨none, none, some (.arr [.str "users"]), none, none, none, none, none,
   some (.str "posts"), []⟩

/-- C9 registry: one table `t` with a single column `id`. -/
def c9defs : String → Option TableDef := fun n =>
  if n = "t" then some ⟨"t", none, none, none, [⟨"id", none, none⟩], []⟩ else none

/-- C9 resolved join list: the FROM table `t` with its model attached. -/
def c9joins : List JoinEntry := [⟨none, "t", none, none, some ⟨"t", none⟩⟩]

/-- C9 select: `x` is not a column of `t`; the entry carries the string
literal value `"42"`. -/
def c9sel : LSelectSpec :=
  ⟨some "x", none, none, none, none, some (.str "42"), []⟩

/-- C10 schema. -/
def c10defs : List (String × RawTableDef) :=
  [("orders", ⟨none, none, none, .arr [.str "amount"], .missing⟩)]

/-- C10 configured instance. -/
def c10state : QbState := (defineQb emptyQb c10defs).toOption.getD emptyQb

/-- C10 query spec, carrying a `from` key and a non-whitelisted key. -/
def c10spec : RawSpec :=
  ⟨some (.arr [.obj "amount" none none (some (.flist ["SUM", "ROUND"]))]), none,
   none, none, none, none, none, none, some (.str "orders"), ["limit"]⟩

/-! ## Claim theorems (concrete parts) -/

/-- C1 counterexample: selecting column `amount` with declared functions
`[SUM, ROUND]` and no explicit `as` derives the output alias
`amount_round_sum`, not `amount_sum_round` as the claim states (the
suffix chain accumulates in application order, innermost function first). -/
theorem C1_counterexample :
    (queryRun c1state 10 c1spec).map (fun r => r.1.selections.map Prod.snd)
      = .ok [some "amount_round_sum"]
    ∧ (some "amount_round_sum" : Option String) ≠ some "amount_sum_round" := by
  exact ⟨by rfl, by decide⟩

/-- C1 amended: for a select of column `amount` with declared function
list `[SUM, ROUND]` (outer-to-inner) and no explicit `as`, expression
composition produces the expression `SUM(ROUND(amount))` and derives the
output alias `amount_round_sum` (alias suffixes accumulate in
inner-to-outer application order). -/
theorem C1_amended :
    (queryRun c1state 10 c1spec).map (fun r => r.1.selections)
      = .ok [(SqlExpr.app "SUM" (SqlExpr.app "ROUND"
               (SqlExpr.col ⟨"orders", none⟩ "amount")), some "amount_round_sum")] := by
  rfl

/-- C2 counterexample: the claim says every join entry whose JoinDef
declares a `viaTable` produces exactly two predicate edges; with chained
intermediates (the via table's own join itself has a via, which the same
claim requires to be supported), a single such entry produces three. -/
theorem C2_counterexample :
    (queryRun c2state 10 c2spec).map (fun r => edgeCount r.1.tree) = .ok 3
    ∧ ((c2state.definitions "A").bind
        (fun td => (td.joins.find? (fun j => j.name = "C")).map (fun j => j.via)))
        = some (some "B")
    ∧ (3 : Nat) ≠ 2 := by
  exact ⟨by rfl, by rfl, by decide⟩

/-- C3 counterexample: the claim says the k-th subsequent occurrence of a
table resolved with the same candidate alias gets suffix `_k`; the usage
counter is keyed by candidate string across all tables, so with another
table using candidate `X` in between, the second occurrence of `T` gets
`X_3`, not `X_2`. -/
theorem C3_counterexample :
    (queryRun c3state 10 c3spec).map
        (fun r => r.2.joins.map (fun j => j.model.map (fun m => jsGetS m.als m.table)))
      = .ok [some "R", some "X", some "X_2", some "X_3"]
    ∧ ("X_3" : String) ≠ "X_2" := by
  exact ⟨by rfl, by decide⟩

/-- C4 counterexample: calling `define` a second time with the same
definitions does not leave the PublicSchema identical — `buildSchema`
pushes onto `this.schema`, so the schema array doubles (2 entries after
the second call vs 1 after the first). -/
theorem C4_counterexample :
    ((defineQb emptyQb c4defs).bind (fun st => defineQb st c4defs)).map
        (fun st => st.schema.length) = .ok 2
    ∧ (defineQb emptyQb c4defs).map (fun st => st.schema.length) = .ok 1
    ∧ (2 : Nat) ≠ 1 := by
  exact ⟨by rfl, by rfl, by decide⟩

/-- C4 amended: re-defining with the same definitions leaves the
definitions/model registry unchanged (last write wins over identical
entries), but appends a second copy of the derived public schema to the
schema array instead of recomputing it: the PublicSchema grows by one
copy of the `buildSchema` output per call. -/
theorem C4_amended (st : QbState) (raw : List (String × RawTableDef))
    (nd : List (String × TableDef)) (h : normalizeDefs raw = .ok nd) :
    ∃ st1 st2, defineQb st raw = .ok st1 ∧ defineQb st1 raw = .ok st2
      ∧ (∀ k, st2.definitions k = st1.definitions k)
      ∧ st2.schema = st1.schema ++ buildSchema nd := by
  refine ⟨⟨fun k => (lookupLast nd k) <|> st.definitions k,
           st.schema ++ buildSchema nd⟩,
          ⟨fun k => (lookupLast nd k) <|> ((lookupLast nd k) <|> st.definitions k),
           st.schema ++ buildSchema nd ++ buildSchema nd⟩, ?_, ?_, ?_, ?_⟩
  · simp [defineQb, h]
  · simp [defineQb, h]
  · intro k
    cases hk : lookupLast nd k <;> simp [hk, Option.orElse]
  · simp

/-- C4 witness for the amended theorem at a concrete schema. -/
theorem C4_amended_witness :
    normalizeDefs c4defs = .ok c4nd
    ∧ ∃ st1 st2, defineQb emptyQb c4defs = .ok st1 ∧ defineQb st1 c4defs = .ok st2
        ∧ (∀ k, st2.definitions k = st1.definitions k)
        ∧ st2.schema = st1.schema ++ buildSchema c4nd :=
  ⟨by rfl, C4_amended emptyQb c4defs c4nd (by rfl)⟩

/-- C5 counterexample: with `A` listed before `B` in the definitions
mapping, `normalize` reads `B`'s `primary_key` before `B`'s columns were
normalized, so the target key defaults to `id` and the resolved predicate
is `A.id = B.id`, not `A.id = B.bid`. -/
theorem C5_counterexample :
    (queryRun c5stateAB 10 c5spec).map (fun r => r.1.tree)
      = .ok (.join (.base ⟨"A", none⟩) ⟨"B", none⟩
              ⟨⟨"A", none⟩, "id", ⟨"B", none⟩, "id"⟩)
    ∧ (Pred.mk ⟨"A", none⟩ "id" ⟨"B", none⟩ "id")
        ≠ ⟨⟨"A", none⟩, "id", ⟨"B", none⟩, "bid"⟩ := by
  exact ⟨by rfl, by decide⟩

/-- C5 amended: the resolved predicate equals `A.id = B.bid` when `B`
precedes `A` in the definitions mapping (so `B`'s column-flag primary key
is already computed when `A`'s join is normalized); with `A` first, the
target key falls back to `id`. -/
theorem C5_amended :
    (queryRun c5stateBA 10 c5spec).map (fun r => r.1.tree)
      = .ok (.join (.base ⟨"A", none⟩) ⟨"B", none⟩
              ⟨⟨"A", none⟩, "id", ⟨"B", none⟩, "bid"⟩) := by
  rfl

/-- C6 counterexample: when the target table has no JoinDef on its
resolved source table, `query()` aborts with an engine TypeError from
`sourceDef.joins[join.name].via`, whose message names neither the source
table (`posts`) nor the target table (`users`). -/
theorem C6_counterexample :
    queryRun c6state 10 c6spec = .error typeErrVia
    ∧ ¬ ("posts".data <:+: typeErrVia.data)
    ∧ ¬ ("users".data <:+: typeErrVia.data) := by
  exact ⟨by rfl, by decide, by decide⟩

/-- C9 counterexample: a select entry whose name is not a column and whose
`value` is the string `"42"` passes underscore's finite-number test, so the
literal is built from the raw string without quote-escaping, contradicting
the claim that string literals are quote-escaped. -/
theorem C9_counterexample :
    lToSQL c9defs c9joins c9sel false = .ok (.lit "42", none)
    ∧ SqlExpr.lit "42" ≠ SqlExpr.lit ("\x27" ++ "42" ++ "\x27") := by
  exact ⟨by rfl, by decide⟩

/-- C10: `query(spec)` mutates its spec argument in place: the `from` key
and all non-whitelisted keys are gone from the surviving spec (which
retains only selects/joins/wheres/groups, with `from` folded into the
join list), the resolved model handle is attached to the join entry, the
select entry's `functions` array is reversed in place — and re-submitting
the mutated spec object yields a different result (`ROUND(SUM(amount))`
aliased `amount_sum_round`) than the first call (`SUM(ROUND(amount))`
aliased `amount_round_sum`), so two calls on the same object are not
equivalent to two calls on fresh copies. -/
theorem C10_spec_mutation :
    ∃ r1 sp1 r2 sp2,
      queryRun c10state 10 c10spec = .ok (r1, sp1)
      ∧ sp1.selects.map (fun s => s.functions) = [["ROUND", "SUM"]]
      ∧ sp1.joins.map (fun j => (j.name, j.model)) = [("orders", some ⟨"orders", none⟩)]
      ∧ queryRun c10state 10 (specAfterToRaw sp1) = .ok (r2, sp2)
      ∧ r2 ≠ r1 ∧ r1.selections.map Prod.snd = [some "amount_round_sum"]
      ∧ r2.selections.map Prod.snd = [some "amount_sum_round"] := by
  exact ⟨_, _, _, _, rfl, by rfl, by rfl, rfl, by decide, by rfl, by rfl⟩

/-- C6 amended: when the target table has no JoinDef on the resolved
source table (`sourceDef.joins.find?` misses), `joinOnce` aborts the call
with the fixed engine TypeError `typeErrVia` — a fatal error whose message
is independent of, and does not name, the source and target tables. -/
theorem C6_amended (defs : String → Option TableDef) (fuel : Nat)
    (cur : List JoinEntry) (j : JoinEntry) (tree : JoinTree)
    (ns : List NameEntry) (c : Nat) (src : JoinEntry) (sdef : TableDef)
    (h1 : resolveSourceJoin cur j.joinId = some src)
    (h2 : defs src.name = some sdef)
    (h3 : sdef.joins.find? (fun d => d.name = j.name) = none) :
    joinOnce defs (fuel + 1) cur j tree ns c = .error typeErrVia := by
  simp [joinOnce, h1, h2, h3]

/-- C6 witness: the amended theorem at the `posts`/`users` instance. -/
theorem C6_amended_witness :
    joinOnce c6state.definitions (4 + 1)
      [⟨none, "posts", none, none, some ⟨"posts", none⟩⟩]
      ⟨none, "users", none, none, none⟩ (.base ⟨"posts", none⟩)
      [⟨"posts", 1⟩] 0 = .error typeErrVia :=
  C6_amended c6state.definitions 4 _ _ _ _ _
    ⟨none, "posts", none, none, some ⟨"posts", none⟩⟩
    ⟨"posts", none, none, none, [⟨"id", none, none⟩], []⟩
    (by rfl) (by rfl) (by rfl)

/-- C8: an unmatched `joinId`/`parentId` silently falls back to the root
join node (`spec.joins[0]`), both for join-source resolution
(`resolveSourceJoin` is exactly the lookup of qb.js line 315) and for a
select entry's owner lookup (qb.js line 389): no error is raised, and up
to the recorded `joinId` in the mutated entry, the select result is the
same as with no `joinId` at all. -/
theorem C8_unmatched_id_falls_back_to_root
    (joins : List JoinEntry) (jid : Option String)
    (h : ∀ e ∈ joins, matchesId jid e.id = false) :
    resolveSourceJoin joins jid = joins.head?
    ∧ ∀ (defs : String → Option TableDef) (sel : SelectEntry),
        (runSelectOne defs joins { sel with joinId := jid }).map Prod.fst
          = (runSelectOne defs joins { sel with joinId := none }).map Prod.fst := by
  have hf : joins.find? (fun e => matchesId jid e.id) = none := by
    apply List.find?_eq_none.mpr
    intro e he
    simp [h e he]
  have hf0 : joins.find? (fun e => matchesId none e.id) = none := by
    apply List.find?_eq_none.mpr
    intro e _
    simp [matchesId]
  have e1 : resolveSourceJoin joins jid = joins.head? := by
    simp [resolveSourceJoin, hf, Option.orElse]
  have e2 : resolveSourceJoin joins none = joins.head? := by
    simp [resolveSourceJoin, hf0, Option.orElse]
  refine ⟨e1, ?_⟩
  intro defs sel
  simp only [runSelectOne, e1, e2]
  cases joins.head? with
  | none => rfl
  | some jj =>
    dsimp only
    cases defs jj.name with
    | none => rfl
    | some td =>
      dsimp only
      cases td.columns.find? (fun cdef => cdef.name = sel.name) with
      | none => rfl
      | some cd =>
        dsimp only
        cases jj.model with
        | none => rfl
        | some m => rfl

/-- C8 witness: a registry and join list for the fallback instance. -/
def c8defsF : String → Option TableDef := fun n =>
  if n = "R" then some ⟨"R", none, none, none, [⟨"id", none, none⟩], []⟩ else none

/-- C8 witness join list: one root entry whose id is not `nope`. -/
def c8joins : List JoinEntry := [⟨some "j1", "R", none, none, some ⟨"R", none⟩⟩]

/-- C8 witness select entry. -/
def c8sel : SelectEntry := ⟨"id", none, none, none⟩

/-- C8 witness: the fallback at a concrete unmatched id. -/
theorem C8_witness :
    resolveSourceJoin c8joins (some "nope") = c8joins.head?
    ∧ (runSelectOne c8defsF c8joins { c8sel with joinId := some "nope" }).map Prod.fst
        = (runSelectOne c8defsF c8joins { c8sel with joinId := none }).map Prod.fst :=
  ⟨(C8_unmatched_id_falls_back_to_root c8joins (some "nope") (by decide)).1,
   (C8_unmatched_id_falls_back_to_root c8joins (some "nope") (by decide)).2 c8defsF c8sel⟩

/-- C9 amended: for a select entry whose name is not a column of the
owning table, `SelectSpec.prototype.toSQL` behaves as follows: with no
`value` it fails with the column-not-found error naming the column and
the table; a finite number builds a literal of its decimal text; a string
passing underscore's finite-number test builds a literal of the raw string
(NOT quote-escaped); any other string is quote-escaped; any other defined
value (null, booleans, ...) crashes with a TypeError naming neither the
column nor the table. -/
theorem C9_amended (defs : String → Option TableDef) (joins : List JoinEntry)
    (sel : LSelectSpec) (j : JoinEntry) (td : TableDef)
    (hj : lSelectJoin joins sel = some j)
    (htd : defs j.name = some td)
    (hcol : sel.name.bind (fun n => td.columns.find? (fun c => c.name = n)) = none) :
    (sel.value = none →
       lToSQL defs joins sel false = .error (lColErrMsg sel.name j.name))
    ∧ (∀ n : Int, sel.value = some (.num n) →
       lToSQL defs joins sel false
         = .ok (lFinish sel (SqlExpr.lit (litText (.num n))) none false))
    ∧ (∀ s : String, sel.value = some (.str s) → jsNumericStr s = true →
       lToSQL defs joins sel false
         = .ok (lFinish sel (SqlExpr.lit s) none false))
    ∧ (∀ s : String, sel.value = some (.str s) → jsNumericStr s = false →
       lToSQL defs joins sel false
         = .ok (lFinish sel (SqlExpr.lit ("\x27" ++ s ++ "\x27")) none false))
    ∧ (sel.value = some .other → lToSQL defs joins sel false = .error typeErrName) := by
  refine ⟨?_, ?_, ?_, ?_, ?_⟩
  · intro hv
    simp [lToSQL, hj, htd, hcol, hv]
  · intro n hv
    simp [lToSQL, hj, htd, hcol, hv, jsIsFiniteLit, litText]
  · intro s hv hnum
    simp [lToSQL, hj, htd, hcol, hv, jsIsFiniteLit, hnum, litText]
  · intro s hv hnum
    simp [lToSQL, hj, htd, hcol, hv, jsIsFiniteLit, hnum]
  · intro hv
    simp [lToSQL, hj, htd, hcol, hv, jsIsFiniteLit]

/-- C9 witness select entry: numeric literal value. -/
def c9selNum : LSelectSpec := ⟨some "x", none, none, none, none, some (.num 7), []⟩

/-- C9 witness: the numeric-literal branch at a concrete instance. -/
theorem C9_amended_witness :
    lToSQL c9defs c9joins c9selNum false
      = .ok (lFinish c9selNum (SqlExpr.lit (litText (.num 7))) none false) :=
  (C9_amended c9defs c9joins c9selNum ⟨none, "t", none, none, some ⟨"t", none⟩⟩
      ⟨"t", none, none, none, [⟨"id", none, none⟩], []⟩
      (by rfl) (by rfl) (by rfl)).2.1 7 (by rfl)

/-- A join-target violation in raw definitions: table `t` declares a join
onto `j`, and `j` is not a key of the input mapping. -/
def joinTargetViolation (raw : List (String × RawTableDef)) (t j : String) : Prop :=
  ∃ rd jr, (t, rd) ∈ raw ∧ jr ∈ rawJoinList rd.joins ∧ jr.name = j
    ∧ raw.any (fun e => e.1 = j) = false

theorem exBindOk {α β : Type} (a : α) (f : α → Except String β) :
    (Except.ok a >>= f) = f a := rfl

theorem exBindErr {α β : Type} (e : String) (f : α → Except String β) :
    ((Except.error e : Except String α) >>= f) = .error e := rfl

theorem exPure {α : Type} (a : α) : (pure a : Except String α) = .ok a := rfl

theorem normJoins_error {t : String} {keyExists : String → Bool}
    {pkOf : String → Option String} {ownPk : Option String} :
    ∀ (l : List RawJoin) (m : String),
      normJoins t keyExists pkOf ownPk l = .error m →
      ∃ jr ∈ l, keyExists jr.name = false ∧ m = joinErrMsg t jr.name := by
  have main : ∀ (l : List RawJoin) (acc : List JoinDef) (m : String),
      (l.foldlM (fun acc j => do
        let jd ← normJoinEntry t keyExists pkOf ownPk j
        pure (upsertJoin acc jd)) acc) = .error m →
      ∃ jr ∈ l, keyExists jr.name = false ∧ m = joinErrMsg t jr.name := by
    intro l
    induction l with
    | nil =>
        intro acc m h
        rw [List.foldlM_nil, exPure] at h
        exact nomatch h
    | cons j rest ih =>
        intro acc m h
        rw [List.foldlM_cons] at h
        cases hk : keyExists j.name with
        | true =>
            have hjd : normJoinEntry t keyExists pkOf ownPk j
                = .ok { name := j.name, as := j.as,
                        source_key := jsGetS2 j.source_key ownPk "id",
                        target_key := jsGetS2 j.target_key (pkOf j.name) "id",
                        via := j.via } := by
              simp [normJoinEntry, hk]
            rw [show (do
                  let jd ← normJoinEntry t keyExists pkOf ownPk j
                  pure (upsertJoin acc jd))
                = (normJoinEntry t keyExists pkOf ownPk j
                    >>= fun jd => pure (upsertJoin acc jd)) from rfl,
               hjd, exBindOk, exPure, exBindOk] at h
            obtain ⟨jr, hmem, hkk, hm⟩ := ih _ _ h
            exact ⟨jr, List.mem_cons_of_mem _ hmem, hkk, hm⟩
        | false =>
            have hjd : normJoinEntry t keyExists pkOf ownPk j
                = .error (joinErrMsg t j.name) := by
              simp [normJoinEntry, hk]
            rw [show (do
                  let jd ← normJoinEntry t keyExists pkOf ownPk j
                  pure (upsertJoin acc jd))
                = (normJoinEntry t keyExists pkOf ownPk j
                    >>= fun jd => pure (upsertJoin acc jd)) from rfl,
               hjd, exBindErr, exBindErr] at h
            cases h
            exact ⟨j, List.mem_cons_self _ _, hk, rfl⟩
  intro l m h
  exact main l [] m h

theorem normJoins_ok {t : String} {keyExists : String → Bool}
    {pkOf : String → Option String} {ownPk : Option String} :
    ∀ (l : List RawJoin) (r : List JoinDef),
      normJoins t keyExists pkOf ownPk l = .ok r →
      ∀ jr ∈ l, keyExists jr.name = true := by
  have main : ∀ (l : List RawJoin) (acc : List JoinDef) (r : List JoinDef),
      (l.foldlM (fun acc j => do
        let jd ← normJoinEntry t keyExists pkOf ownPk j
        pure (upsertJoin acc jd)) acc) = .ok r →
      ∀ jr ∈ l, keyExists jr.name = true := by
    intro l
    induction l with
    | nil => intro acc r _ jr hm; exact absurd hm (List.not_mem_nil jr)
    | cons j rest ih =>
        intro acc r h jr hm
        rw [List.foldlM_cons] at h
        cases hk : keyExists j.name with
        | true =>
            have hjd : normJoinEntry t keyExists pkOf ownPk j
                = .ok { name := j.name, as := j.as,
                        source_key := jsGetS2 j.source_key ownPk "id",
                        target_key := jsGetS2 j.target_key (pkOf j.name) "id",
                        via := j.via } := by
              simp [normJoinEntry, hk]
            rw [show (do
                  let jd ← normJoinEntry t keyExists pkOf ownPk j
                  pure (upsertJoin acc jd))
                = (normJoinEntry t keyExists pkOf ownPk j
                    >>= fun jd => pure (upsertJoin acc jd)) from rfl,
               hjd, exBindOk, exPure, exBindOk] at h
            cases List.mem_cons.mp hm with
            | inl he => rw [he]; exact hk
            | inr he => exact ih _ _ h jr he
        | false =>
            have hjd : normJoinEntry t keyExists pkOf ownPk j
                = .error (joinErrMsg t j.name) := by
              simp [normJoinEntry, hk]
            rw [show (do
                  let jd ← normJoinEntry t keyExists pkOf ownPk j
                  pure (upsertJoin acc jd))
                = (normJoinEntry t keyExists pkOf ownPk j
                    >>= fun jd => pure (upsertJoin acc jd)) from rfl,
               hjd, exBindErr, exBindErr] at h
            exact nomatch h
  intro l r h
  exact main l [] r h

theorem normTable_error {rawAll : List (String × RawTableDef)}
    {processed : List (String × TableDef)} {t : String} {rd : RawTableDef}
    {m : String} (h : normTable rawAll processed t rd = .error m) :
    ∃ jr ∈ rawJoinList rd.joins,
      rawAll.any (fun e => e.1 = jr.name) = false ∧ m = joinErrMsg t jr.name := by
  unfold normTable at h
  dsimp only at h
  split at h
  · cases h
    next heq => exact normJoins_error _ _ heq
  · exact nomatch h

theorem normTable_ok {rawAll : List (String × RawTableDef)}
    {processed : List (String × TableDef)} {t : String} {rd : RawTableDef}
    {td : TableDef} (h : normTable rawAll processed t rd = .ok td) :
    ∀ jr ∈ rawJoinList rd.joins, rawAll.any (fun e => e.1 = jr.name) = true := by
  unfold normTable at h
  dsimp only at h
  split at h
  · exact nomatch h
  · next heq => exact normJoins_ok _ _ heq

theorem normalizeGo_error {rawAll : List (String × RawTableDef)} :
    ∀ (rem : List (String × RawTableDef)) (acc : List (String × TableDef))
      (m : String), normalizeGo rawAll rem acc = .error m →
      ∃ t rd jr, (t, rd) ∈ rem ∧ jr ∈ rawJoinList rd.joins
        ∧ rawAll.any (fun e => e.1 = jr.name) = false ∧ m = joinErrMsg t jr.name := by
  intro rem
  induction rem with
  | nil => intro acc m h; exact nomatch h
  | cons hd rest ih =>
      intro acc m h
      obtain ⟨t, rd⟩ := hd
      unfold normalizeGo at h
      split at h
      · cases h
        next heq =>
          obtain ⟨jr, hmem, hany, hm⟩ := normTable_error heq
          exact ⟨t, rd, jr, List.mem_cons_self _ _, hmem, hany, hm⟩
      · next td heq =>
          obtain ⟨t2, rd2, jr, hmem, hjr, hany, hm⟩ := ih _ _ h
          exact ⟨t2, rd2, jr, List.mem_cons_of_mem _ hmem, hjr, hany, hm⟩

theorem normalizeGo_ok {rawAll : List (String × RawTableDef)} :
    ∀ (rem : List (String × RawTableDef)) (acc : List (String × TableDef))
      (r : List (String × TableDef)), normalizeGo rawAll rem acc = .ok r →
      ∀ t rd, (t, rd) ∈ rem → ∀ jr ∈ rawJoinList rd.joins,
        rawAll.any (fun e => e.1 = jr.name) = true := by
  intro rem
  induction rem with
  | nil => intro acc r _ t rd hm; exact absurd hm (List.not_mem_nil _)
  | cons hd rest ih =>
      intro acc r h t rd hm jr hjr
      obtain ⟨t1, rd1⟩ := hd
      unfold normalizeGo at h
      split at h
      · exact nomatch h
      · next td heq =>
          cases List.mem_cons.mp hm with
          | inl he =>
              cases he
              exact normTable_ok heq jr hjr
          | inr he => exact ih _ _ h t rd he jr hjr

/-- C7: `define(definitions)` throws at configuration time whenever any
table declares a join entry naming a target that is not a key of the
input mapping, and the thrown message is exactly
`Table <owner> joined on undefined table <target>.` for a violating pair
present in the input — it names both the owning table and the missing
target.  (Since `define` throws, nothing is deferred to query time.) -/
theorem C7_define_throws (st : QbState) (raw : List (String × RawTableDef))
    (h : ∃ t j, joinTargetViolation raw t j) :
    ∃ t j, joinTargetViolation raw t j
      ∧ defineQb st raw = .error (joinErrMsg t j) := by
  cases hnd : normalizeDefs raw with
  | ok nd =>
      exfalso
      obtain ⟨t, j, rd, jr, hmem, hjr, hname, hany⟩ := h
      have := normalizeGo_ok raw [] nd hnd t rd hmem jr hjr
      rw [hname] at this
      rw [this] at hany
      exact nomatch hany
  | error m =>
      obtain ⟨t, rd, jr, hmem, hjr, hany, hm⟩ := normalizeGo_error raw [] m hnd
      refine ⟨t, jr.name, ⟨rd, jr, hmem, hjr, rfl, hany⟩, ?_⟩
      rw [show defineQb st raw = match normalizeDefs raw with
            | .error e => .error e
            | .ok nd =>
                .ok { definitions := fun k => (lookupLast nd k) <|> st.definitions k,
                      schema := st.schema ++ buildSchema nd } from rfl,
          hnd, hm]

/-- C7 witness schema: `A` joins the undefined table `Z`. -/
def c7defs : List (String × RawTableDef) :=
  [("A", ⟨none, none, none, .missing, .arr [⟨"Z", none, none, none, none⟩]⟩)]

/-- C7 witness: `define` on `c7defs` throws the error naming `A` and `Z`. -/
theorem C7_witness :
    ∃ t j, joinTargetViolation c7defs t j
      ∧ defineQb emptyQb c7defs = .error (joinErrMsg t j) :=
  C7_define_throws emptyQb c7defs
    ⟨"A", "Z", ⟨none, none, none, .missing, .arr [⟨"Z", none, none, none, none⟩]⟩,
     ⟨"Z", none, none, none, none⟩, by decide, by decide, rfl, by decide⟩

/-- A successful direct (no-via) `joinOnce` step: the entry gets a model
handle for its table, one predicate edge is appended to the tree, and the
uniqueId counter is unchanged. -/
theorem joinOnce_direct {defs : String → Option TableDef} {fuel : Nat}
    {cur : List JoinEntry} {j : JoinEntry} {tree : JoinTree}
    {ns : List NameEntry} {c : Nat} {src : JoinEntry} {sdef tdef : TableDef}
    {jd : JoinDef} {sm : Model} {sk tk : String}
    (h1 : resolveSourceJoin cur j.joinId = some src)
    (h2 : defs src.name = some sdef)
    (h3 : sdef.joins.find? (fun d => d.name = j.name) = some jd)
    (h4 : jd.via = none)
    (h5 : defs j.name = some tdef)
    (h6 : src.model = some sm)
    (h7 : jsOrs (some jd.source_key) sdef.primary_key = some sk)
    (h8 : jsOrs (some jd.target_key) tdef.primary_key = some tk) :
    ∃ al ns2, joinOnce defs (fuel + 1) cur j tree ns c
      = .ok ({ j with model := some ⟨j.name, al⟩ },
             .join tree ⟨j.name, al⟩ ⟨sm, sk, ⟨j.name, al⟩, tk⟩, ns2, c) := by
  refine ⟨(match (bumpName ns (jsGetS (jsOrs j.as tdef.as) j.name)).2 with
           | some u => some (jsGetS (jsOrs j.as tdef.as) j.name ++ "_" ++ Nat.repr u)
           | none => jsOrs j.as tdef.as),
          (match (bumpName ns (jsGetS (jsOrs j.as tdef.as) j.name)).2 with
           | some _ => (bumpName ns (jsGetS (jsOrs j.as tdef.as) j.name)).1
           | none => ns ++ [⟨jsGetS (jsOrs j.as tdef.as) j.name, 1⟩]), ?_⟩
  simp only [joinOnce, h1, h2, h3, h4, h5, h6, h7, h8]


/-- An Except bind succeeds exactly when both stages succeed. -/
theorem exBind_ok_iff {α β : Type} {x : Except String α} {f : α → Except String β}
    {b : β} : (x >>= f) = .ok b ↔ ∃ a, x = .ok a ∧ f a = .ok b := by
  cases x with
  | ok a =>
      rw [exBindOk]
      constructor
      · intro h
        exact ⟨a, rfl, h⟩
      · intro h
        obtain ⟨a2, ha, hf⟩ := h
        cases ha
        exact hf
  | error e =>
      rw [exBindErr]
      constructor
      · intro h
        exact nomatch h
      · intro h
        obtain ⟨a2, ha, hf⟩ := h
        exact nomatch ha

/-- `joinOnce` returns the processed entry with its `id` and `name`
unchanged (only `joinId`/`model` are mutated). -/
theorem joinOnce_idname : ∀ (fuel : Nat) {defs : String → Option TableDef}
    {cur : List JoinEntry} {j : JoinEntry} {tree : JoinTree}
    {ns : List NameEntry} {c : Nat}
    {out : JoinEntry × JoinTree × List NameEntry × Nat},
    joinOnce defs fuel cur j tree ns c = .ok out →
    out.1.id = j.id ∧ out.1.name = j.name := by
  intro fuel
  induction fuel with
  | zero => intro defs cur j tree ns c out h; exact nomatch h
  | succ n ih =>
      intro defs cur j tree ns c out h
      unfold joinOnce at h
      split at h
      · exact nomatch h
      · split at h
        · exact nomatch h
        · split at h
          · exact nomatch h
          · split at h
            · -- via branch
              rw [exBind_ok_iff] at h
              obtain ⟨r1, hr1, h2⟩ := h
              have h3 := ih h2
              exact ⟨h3.1, h3.2⟩
            · -- direct branch
              split at h
              · exact nomatch h
              · split at h
                · exact nomatch h
                · split at h
                  · cases h
                    exact ⟨rfl, rfl⟩
                  · exact nomatch h

/-- The join loop writes entries back in place: the resulting
`spec.joins` has exactly the caller's ids and table names, in order — in
particular no synthesized intermediate entry is ever inserted. -/
theorem joinLoop_names {defs : String → Option TableDef} {fuel : Nat} :
    ∀ (rest done : List JoinEntry) {tree : JoinTree} {ns : List NameEntry} {c : Nat}
      {out : List JoinEntry × JoinTree × List NameEntry × Nat},
      joinLoop defs fuel done rest tree ns c = .ok out →
      out.1.map (fun e => (e.id, e.name)) = (done ++ rest).map (fun e => (e.id, e.name)) := by
  intro rest
  induction rest with
  | nil =>
      intro done tree ns c out h
      unfold joinLoop at h
      cases h
      simp
  | cons j tl ih =>
      intro done tree ns c out h
      unfold joinLoop at h
      rw [exBind_ok_iff] at h
      obtain ⟨r, hr, h2⟩ := h
      have hpres := joinOnce_idname fuel hr
      have hmain := ih (done ++ [r.1]) h2
      rw [hmain]
      simp [hpres.1, hpres.2]


/-- C2 amended: a join entry whose JoinDef declares a `viaTable` produces
exactly two predicate edges (source→via and via→target) when the via hop
itself is direct; with chained intermediates each extra hop adds an edge
(see the counterexample).  Moreover the join phase never inserts the
synthesized intermediate entry into `spec.joins` (the processed entry
keeps its id and name, and the loop preserves the caller's list), so a
select entry's joinId/table lookup can only match intermediate tables the
caller listed separately. -/
theorem C2_amended (defs : String → Option TableDef) (fuel : Nat)
    (cur : List JoinEntry) (j : JoinEntry) (tree : JoinTree)
    (ns : List NameEntry) (c : Nat) (src : JoinEntry) (sdef vdef tdef : TableDef)
    (jd jdv jd2 : JoinDef) (sm : Model) (v : String) (sk1 tk1 sk2 tk2 : String)
    (h1 : resolveSourceJoin cur j.joinId = some src)
    (h2 : defs src.name = some sdef)
    (h3 : sdef.joins.find? (fun d => d.name = j.name) = some jd)
    (h4 : jd.via = some v)
    (h5 : sdef.joins.find? (fun d => d.name = v) = some jdv)
    (h6 : jdv.via = none)
    (h7 : defs v = some vdef)
    (h8 : src.model = some sm)
    (h9 : jsOrs (some jdv.source_key) sdef.primary_key = some sk1)
    (h10 : jsOrs (some jdv.target_key) vdef.primary_key = some tk1)
    (h11 : vdef.joins.find? (fun d => d.name = j.name) = some jd2)
    (h12 : jd2.via = none)
    (h13 : defs j.name = some tdef)
    (h14 : jsOrs (some jd2.source_key) vdef.primary_key = some sk2)
    (h15 : jsOrs (some jd2.target_key) tdef.primary_key = some tk2) :
    (∃ out, joinOnce defs (fuel + 1 + 1) cur j tree ns c = .ok out
       ∧ edgeCount out.2.1 = edgeCount tree + 2
       ∧ out.1.id = j.id ∧ out.1.name = j.name)
    ∧ (∀ (fuel2 : Nat) (done rest : List JoinEntry) (tree2 : JoinTree)
         (ns2 : List NameEntry) (c2 : Nat)
         (out2 : List JoinEntry × JoinTree × List NameEntry × Nat),
         joinLoop defs fuel2 done rest tree2 ns2 c2 = .ok out2 →
         out2.1.map (fun e => (e.id, e.name)) = (done ++ rest).map (fun e => (e.id, e.name))) := by
  constructor
  · have hstep : joinOnce defs (fuel + 1 + 1) cur j tree ns c
        = (joinOnce defs (fuel + 1) cur
              ⟨some ("_via_" ++ Nat.repr (c + 1)), v, none, j.joinId, none⟩ tree ns (c + 1)
            >>= fun r1 => joinOnce defs (fuel + 1) [r1.1]
              { j with joinId := some ("_via_" ++ Nat.repr (c + 1)) } r1.2.1 r1.2.2.1 r1.2.2.2) := by
      simp only [joinOnce, h1, h2, h3, h4]
    obtain ⟨al1, nsA, hr1⟩ := @joinOnce_direct defs fuel cur
      ⟨some ("_via_" ++ Nat.repr (c + 1)), v, none, j.joinId, none⟩
      tree ns (c + 1) src sdef vdef jdv sm sk1 tk1
      h1 h2 h5 h6 h7 h8 h9 h10
    obtain ⟨al2, nsB, hr2⟩ := @joinOnce_direct defs fuel
      [{ (⟨some ("_via_" ++ Nat.repr (c + 1)), v, none, j.joinId, none⟩ : JoinEntry)
          with model := some ⟨v, al1⟩ }]
      { j with joinId := some ("_via_" ++ Nat.repr (c + 1)) }
      (.join tree ⟨v, al1⟩ ⟨sm, sk1, ⟨v, al1⟩, tk1⟩) nsA (c + 1)
      { (⟨some ("_via_" ++ Nat.repr (c + 1)), v, none, j.joinId, none⟩ : JoinEntry)
          with model := some ⟨v, al1⟩ }
      vdef tdef jd2 ⟨v, al1⟩ sk2 tk2
      (by simp [resolveSourceJoin, matchesId]) h7 h11 h12 h13 rfl h14 h15
    exact ⟨_, by rw [hstep, hr1, exBindOk]; exact hr2, by simp [edgeCount], rfl, rfl⟩
  · intro fuel2 done rest tree2 ns2 c2 out2 hloop
    exact joinLoop_names rest done hloop


/-- C2 witness schema: `A` joins `C` via `B` (single direct hop). -/
def c2vdefs : List (String × RawTableDef) :=
  [("A", ⟨none, none, none, .arr [.str "id"],
     .arr [⟨"C", none, none, none, some "B"⟩, ⟨"B", none, none, none, none⟩]⟩),
   ("B", ⟨none, none, none, .arr [.str "id"], .arr [⟨"C", none, none, none, none⟩]⟩),
   ("C", ⟨none, none, none, .arr [.str "id"], .missing⟩)]

/-- C2 witness instance. -/
def c2vstate : QbState := (defineQb emptyQb c2vdefs).toOption.getD emptyQb

/-- C2 witness current join list (resolved root). -/
def c2vcur : List JoinEntry := [⟨none, "A", none, none, some ⟨"A", none⟩⟩]

/-- C2 witness join entry (targets `C`, whose JoinDef declares via `B`). -/
def c2vj : JoinEntry := ⟨none, "C", none, none, none⟩

/-- C2 witness: the amended theorem at the single-hop schema. -/
theorem C2_amended_witness :
    ∃ out, joinOnce c2vstate.definitions (3 + 1 + 1) c2vcur c2vj
        (.base ⟨"A", none⟩) [⟨"A", 1⟩] 0 = .ok out
      ∧ edgeCount out.2.1 = edgeCount (JoinTree.base ⟨"A", none⟩) + 2
      ∧ out.1.id = c2vj.id ∧ out.1.name = c2vj.name :=
  (C2_amended c2vstate.definitions 3 c2vcur c2vj (.base ⟨"A", none⟩) [⟨"A", 1⟩] 0
    ⟨none, "A", none, none, some ⟨"A", none⟩⟩
    ⟨"A", none, none, none, [⟨"id", none, none⟩],
      [⟨"C", none, "id", "id", some "B"⟩, ⟨"B", none, "id", "id", none⟩]⟩
    ⟨"B", none, none, none, [⟨"id", none, none⟩], [⟨"C", none, "id", "id", none⟩]⟩
    ⟨"C", none, none, none, [⟨"id", none, none⟩], []⟩
    ⟨"C", none, "id", "id", some "B"⟩
    ⟨"B", none, "id", "id", none⟩
    ⟨"C", none, "id", "id", none⟩
    ⟨"A", none⟩ "B" "id" "id" "id" "id"
    (by rfl) (by rfl) (by rfl) (by rfl) (by rfl) (by rfl) (by rfl) (by rfl)
    (by rfl) (by rfl) (by rfl) (by rfl) (by rfl) (by rfl) (by rfl)).1

/-- Numeric value of a decimal digit character. -/
def decChar (c : Char) : Nat := c.toNat - 48

/-- Decode a decimal digit string back to the number it denotes. -/
def decDigits (l : List Char) : Nat := l.foldl (fun a c => 10 * a + decChar c) 0

/-- `Nat.toDigitsCore` only prepends to its accumulator. -/
theorem toDigitsCore_shift (f : Nat) : ∀ (n : Nat) (ds : List Char),
    Nat.toDigitsCore 10 f n ds = Nat.toDigitsCore 10 f n [] ++ ds := by
  induction f with
  | zero => intro n ds; simp [Nat.toDigitsCore]
  | succ f ih =>
      intro n ds
      simp only [Nat.toDigitsCore]
      by_cases h : n / 10 = 0
      · simp [h]
      · simp only [h, if_false]
        rw [ih (n / 10) (Nat.digitChar (n % 10) :: ds),
            ih (n / 10) [Nat.digitChar (n % 10)]]
        simp

/-- Decoding one more trailing digit. -/
theorem decDigits_append_one (l : List Char) (c : Char) :
    decDigits (l ++ [c]) = 10 * decDigits l + decChar c := by
  simp [decDigits, List.foldl_append]

/-- Decoding inverts `Nat.digitChar` on single digits. -/
theorem decChar_digitChar (m : Nat) (h : m < 10) :
    decChar (Nat.digitChar m) = m := by
  interval_cases m <;> rfl

/-- Decoding inverts `Nat.toDigitsCore` (with sufficient fuel). -/
theorem decDigits_toDigitsCore : ∀ (f n : Nat), n < f →
    decDigits (Nat.toDigitsCore 10 f n []) = n := by
  intro f
  induction f with
  | zero => intro n h; omega
  | succ f ih =>
      intro n h
      simp only [Nat.toDigitsCore]
      by_cases h0 : n / 10 = 0
      · have hn : n < 10 := by omega
        simp only [h0, if_true, reduceIte]
        have : decDigits [Nat.digitChar (n % 10)] = decChar (Nat.digitChar (n % 10)) := by
          simp [decDigits]
        rw [this, decChar_digitChar (n % 10) (Nat.mod_lt n (by norm_num))]
        · exact Nat.mod_eq_of_lt hn
      · simp only [h0, if_false, reduceIte]
        rw [toDigitsCore_shift, decDigits_append_one,
            ih (n / 10) (by omega),
            decChar_digitChar (n % 10) (Nat.mod_lt n (by omega))]
        omega

/-- Decimal printing of naturals (`Nat.repr`, what the JS `\x27_\x27 + (++named.used)` concatenation uses) is injective. -/
theorem reprInj {m n : Nat} (h : Nat.repr m = Nat.repr n) : m = n := by
  have hd : Nat.toDigits 10 m = Nat.toDigits 10 n := by
    have h2 := congrArg String.data h
    simpa [Nat.repr, List.asString] using h2
  have hm := decDigits_toDigitsCore (m + 1) m (Nat.lt_succ_self m)
  have hn := decDigits_toDigitsCore (n + 1) n (Nat.lt_succ_self n)
  rw [show Nat.toDigitsCore 10 (m + 1) m [] = Nat.toDigits 10 m from rfl] at hm
  rw [show Nat.toDigitsCore 10 (n + 1) n [] = Nat.toDigits 10 n from rfl] at hn
  rw [← hm, ← hn, hd]


/-- With no `joinId` at all the source lookup also falls back to the root. -/
theorem resolveSourceJoin_none (cur : List JoinEntry) :
    resolveSourceJoin cur none = cur.head? := by
  have hf : cur.find? (fun e => matchesId none e.id) = none := by
    apply List.find?_eq_none.mpr
    intro e _
    simp [matchesId]
  simp [resolveSourceJoin, hf, Option.orElse]

/-- A suffixed alias is never the empty string. -/
theorem underscore_append_ne_empty (c r : String) : c ++ "_" ++ r ≠ "" := by
  intro h
  have h2 := congrArg String.length h
  rw [String.length_append, String.length_append] at h2
  have h3 : ("_" : String).length = 1 := rfl
  have h4 : ("" : String).length = 0 := rfl
  omega

/-- A candidate is distinct from any of its suffixed variants. -/
theorem suffix_ne (c r : String) : c ≠ c ++ "_" ++ r := by
  intro h
  have h2 := congrArg String.length h
  rw [String.length_append, String.length_append] at h2
  have h3 : ("_" : String).length = 1 := rfl
  omega

/-- Two suffixed variants of one candidate agree only on equal counters. -/
theorem append_repr_inj (c : String) {i j : Nat}
    (h : c ++ "_" ++ Nat.repr i = c ++ "_" ++ Nat.repr j) : i = j := by
  apply reprInj
  have hd := congrArg String.data h
  simp only [String.data_append] at hd
  have h2 := List.append_cancel_left hd
  exact String.ext h2

/-- The defaulted alias sequence claimed for N same-candidate uses:
the bare candidate, then `candidate_2`, ..., `candidate_N`. -/
def aliasSeq (c : String) : Nat → List String
  | 0 => []
  | n + 1 => c :: (List.range n).map (fun i => c ++ "_" ++ Nat.repr (i + 2))

/-- The alias sequence for one candidate is pairwise distinct. -/
theorem aliasSeq_nodup (c : String) (n : Nat) : (aliasSeq c n).Nodup := by
  cases n with
  | zero => simp [aliasSeq]
  | succ m =>
      simp only [aliasSeq, List.nodup_cons]
      constructor
      · intro hmem
        obtain ⟨i, hi, he⟩ := List.mem_map.mp hmem
        exact suffix_ne c (Nat.repr (i + 2)) he.symm
      · refine List.Nodup.map ?_ (List.nodup_range m)
        intro i j hij
        have := append_repr_inj c hij
        omega


/-- First resolution of candidate `T` in a query rooted at `R`: the alias
stays bare and the usage table gains `(T, 1)`. -/
theorem c3_step0 {defs : String → Option TableDef} {R T : String}
    {tdR tdT : TableDef} {jd : JoinDef} {sk tk : String} {fuel : Nat}
    {d0 : JoinEntry} {sm0 : Model}
    (hRT : R ≠ T) (hR : defs R = some tdR) (hT : defs T = some tdT)
    (hTas : tdT.as = none)
    (hjoin : tdR.joins.find? (fun d => d.name = T) = some jd)
    (hvia : jd.via = none)
    (hsk : jsOrs (some jd.source_key) tdR.primary_key = some sk)
    (htk : jsOrs (some jd.target_key) tdT.primary_key = some tk)
    (hd0name : d0.name = R) (hd0m : d0.model = some sm0)
    (cur : List JoinEntry) (hhead : cur.head? = some d0)
    (tree : JoinTree) (c : Nat) :
    joinOnce defs (fuel + 1) cur ⟨none, T, none, none, none⟩ tree [⟨R, 1⟩] c
      = .ok (⟨none, T, none, none, some ⟨T, none⟩⟩,
             .join tree ⟨T, none⟩ ⟨sm0, sk, ⟨T, none⟩, tk⟩,
             [⟨R, 1⟩, ⟨T, 1⟩], c) := by
  have hsrc : resolveSourceJoin cur (⟨none, T, none, none, none⟩ : JoinEntry).joinId
      = some d0 := by
    rw [show (⟨none, T, none, none, none⟩ : JoinEntry).joinId = none from rfl,
        resolveSourceJoin_none, hhead]
  simp only [joinOnce, hsrc]
  rw [hd0name]
  simp only [hR, hT, hjoin, hvia, hd0m, hsk, htk]
  rw [hTas]
  simp [jsOrs, jsGetS, bumpName, hRT]

/-- Later resolutions of candidate `T`: the `k+1`-st collision takes alias
`T_(k+2)` and bumps the usage count in place. -/
theorem c3_step {defs : String → Option TableDef} {R T : String}
    {tdR tdT : TableDef} {jd : JoinDef} {sk tk : String} {fuel : Nat}
    {d0 : JoinEntry} {sm0 : Model}
    (hRT : R ≠ T) (hR : defs R = some tdR) (hT : defs T = some tdT)
    (hTas : tdT.as = none)
    (hjoin : tdR.joins.find? (fun d => d.name = T) = some jd)
    (hvia : jd.via = none)
    (hsk : jsOrs (some jd.source_key) tdR.primary_key = some sk)
    (htk : jsOrs (some jd.target_key) tdT.primary_key = some tk)
    (hd0name : d0.name = R) (hd0m : d0.model = some sm0)
    (cur : List JoinEntry) (hhead : cur.head? = some d0)
    (tree : JoinTree) (k c : Nat) :
    joinOnce defs (fuel + 1) cur ⟨none, T, none, none, none⟩ tree
        [⟨R, 1⟩, ⟨T, k + 1⟩] c
      = .ok (⟨none, T, none, none, some ⟨T, some (T ++ "_" ++ Nat.repr (k + 2))⟩⟩,
             .join tree ⟨T, some (T ++ "_" ++ Nat.repr (k + 2))⟩
               ⟨sm0, sk, ⟨T, some (T ++ "_" ++ Nat.repr (k + 2))⟩, tk⟩,
             [⟨R, 1⟩, ⟨T, k + 2⟩], c) := by
  have hsrc : resolveSourceJoin cur (⟨none, T, none, none, none⟩ : JoinEntry).joinId
      = some d0 := by
    rw [show (⟨none, T, none, none, none⟩ : JoinEntry).joinId = none from rfl,
        resolveSourceJoin_none, hhead]
  simp only [joinOnce, hsrc]
  rw [hd0name]
  simp only [hR, hT, hjoin, hvia, hd0m, hsk, htk]
  rw [hTas]
  simp [jsOrs, jsGetS, bumpName, hRT]


/-- The join loop over `M` further occurrences of `T`, starting from usage
count `k+1`: entries receive `T_(k+2)`, `T_(k+3)`, ... in order. -/
theorem c3_loop {defs : String → Option TableDef} {R T : String}
    {tdR tdT : TableDef} {jd : JoinDef} {sk tk : String} {fuel : Nat}
    {d0 : JoinEntry} {sm0 : Model}
    (hRT : R ≠ T) (hR : defs R = some tdR) (hT : defs T = some tdT)
    (hTas : tdT.as = none)
    (hjoin : tdR.joins.find? (fun d => d.name = T) = some jd)
    (hvia : jd.via = none)
    (hsk : jsOrs (some jd.source_key) tdR.primary_key = some sk)
    (htk : jsOrs (some jd.target_key) tdT.primary_key = some tk)
    (hd0name : d0.name = R) (hd0m : d0.model = some sm0) :
    ∀ (M k : Nat) (dr : List JoinEntry) (tree : JoinTree) (c : Nat),
      ∃ tree2,
        joinLoop defs (fuel + 1) (d0 :: dr)
            (List.replicate M ⟨none, T, none, none, none⟩)
            tree [⟨R, 1⟩, ⟨T, k + 1⟩] c
          = .ok (d0 :: (dr ++ (List.range M).map (fun i =>
                ⟨none, T, none, none,
                 some ⟨T, some (T ++ "_" ++ Nat.repr (k + 2 + i))⟩⟩)),
              tree2, [⟨R, 1⟩, ⟨T, k + 1 + M⟩], c) := by
  intro M
  induction M with
  | zero =>
      intro k dr tree c
      exact ⟨tree, by simp [joinLoop, List.replicate]⟩
  | succ M ih =>
      intro k dr tree c
      rw [List.replicate_succ]
      have hstep := @c3_step defs R T tdR tdT jd sk tk fuel d0 sm0
        hRT hR hT hTas hjoin hvia hsk htk hd0name hd0m
        ((d0 :: dr) ++ ⟨none, T, none, none, none⟩
            :: List.replicate M ⟨none, T, none, none, none⟩)
        (by rfl) tree k c
      obtain ⟨tree2, hloop⟩ := ih (k + 1)
        (dr ++ [⟨none, T, none, none,
          some ⟨T, some (T ++ "_" ++ Nat.repr (k + 2))⟩⟩])
        (.join tree ⟨T, some (T ++ "_" ++ Nat.repr (k + 2))⟩
          ⟨sm0, sk, ⟨T, some (T ++ "_" ++ Nat.repr (k + 2))⟩, tk⟩) c
      refine ⟨tree2, ?_⟩
      rw [show joinLoop defs (fuel + 1) (d0 :: dr)
            (⟨none, T, none, none, none⟩
              :: List.replicate M ⟨none, T, none, none, none⟩)
            tree [⟨R, 1⟩, ⟨T, k + 1⟩] c
          = (joinOnce defs (fuel + 1)
              ((d0 :: dr) ++ ⟨none, T, none, none, none⟩
                :: List.replicate M ⟨none, T, none, none, none⟩)
              ⟨none, T, none, none, none⟩ tree [⟨R, 1⟩, ⟨T, k + 1⟩] c
            >>= fun r => joinLoop defs (fuel + 1) ((d0 :: dr) ++ [r.1])
              (List.replicate M ⟨none, T, none, none, none⟩)
              r.2.1 r.2.2.1 r.2.2.2) from rfl,
        hstep, exBindOk]
      rw [show ((d0 :: dr) ++ [(⟨none, T, none, none,
            some ⟨T, some (T ++ "_" ++ Nat.repr (k + 2))⟩⟩ : JoinEntry)])
          = d0 :: (dr ++ [⟨none, T, none, none,
            some ⟨T, some (T ++ "_" ++ Nat.repr (k + 2))⟩⟩]) from rfl]
      rw [hloop]
      have hlist : (dr ++ [(⟨none, T, none, none,
            some ⟨T, some (T ++ "_" ++ Nat.repr (k + 2))⟩⟩ : JoinEntry)])
          ++ (List.range M).map (fun i =>
              (⟨none, T, none, none,
                some ⟨T, some (T ++ "_" ++ Nat.repr (k + 1 + 2 + i))⟩⟩ : JoinEntry))
        = dr ++ (List.range (M + 1)).map (fun i =>
              (⟨none, T, none, none,
                some ⟨T, some (T ++ "_" ++ Nat.repr (k + 2 + i))⟩⟩ : JoinEntry)) := by
        rw [List.append_assoc]
        congr 1
        rw [List.range_succ_eq_map, List.map_cons, List.map_map,
            List.singleton_append]
        congr 1
        apply List.map_congr_left
        intro i hi
        simp only [Function.comp_apply]
        rw [show k + 2 + (i + 1) = k + 1 + 2 + i from by omega]
      have hcnt : k + 1 + 1 + M = k + 1 + (M + 1) := by omega
      rw [hlist, hcnt]


/-- C3 amended: the alias-usage counter is keyed by candidate string and
shared across the whole query (see the counterexample for interference
between tables); when the N occurrences of a table are the only users of
their candidate — here, a query FROM `R` joining `T` N times with default
candidates and `R ≠ T` — the resolver assigns the bare candidate to the
first occurrence and `candidate_k` to the k-th, k = 2..N, and these N
aliases are pairwise distinct. -/
theorem C3_amended (defs : String → Option TableDef) (R T : String)
    (tdR tdT : TableDef) (jd : JoinDef) (sk tk : String) (fuel N : Nat)
    (hRT : R ≠ T) (hR : defs R = some tdR) (hT : defs T = some tdT)
    (hRas : tdR.as = none) (hTas : tdT.as = none)
    (hjoin : tdR.joins.find? (fun d => d.name = T) = some jd)
    (hvia : jd.via = none)
    (hsk : jsOrs (some jd.source_key) tdR.primary_key = some sk)
    (htk : jsOrs (some jd.target_key) tdT.primary_key = some tk) :
    ∃ out, runJoins defs (fuel + 1)
        (⟨none, R, none, none, none⟩ :: List.replicate N ⟨none, T, none, none, none⟩)
        = .ok out
      ∧ out.1.map (fun e => e.model.map (fun m => jsGetS m.als m.table))
          = some R :: (aliasSeq T N).map some
      ∧ (aliasSeq T N).Nodup := by
  have hrun : runJoins defs (fuel + 1)
      (⟨none, R, none, none, none⟩ :: List.replicate N ⟨none, T, none, none, none⟩)
      = joinLoop defs (fuel + 1) [⟨none, R, none, none, some ⟨R, none⟩⟩]
          (List.replicate N ⟨none, T, none, none, none⟩)
          (.base ⟨R, none⟩) [⟨R, 1⟩] 0 := by
    unfold runJoins
    dsimp only
    rw [hR]
    dsimp only
    rw [hRas]
    rfl
  cases N with
  | zero =>
      refine ⟨([⟨none, R, none, none, some ⟨R, none⟩⟩], .base ⟨R, none⟩,
               [⟨R, 1⟩], 0), ?_, ?_, ?_⟩
      · rw [hrun]
        simp [joinLoop, List.replicate]
      · simp [jsGetS, aliasSeq]
      · simp [aliasSeq]
  | succ M =>
      have hstep0 := @c3_step0 defs R T tdR tdT jd sk tk fuel
        ⟨none, R, none, none, some ⟨R, none⟩⟩ ⟨R, none⟩
        hRT hR hT hTas hjoin hvia hsk htk rfl rfl
        ([⟨none, R, none, none, some ⟨R, none⟩⟩]
          ++ ⟨none, T, none, none, none⟩
            :: List.replicate M ⟨none, T, none, none, none⟩)
        (by rfl) (.base ⟨R, none⟩) 0
      obtain ⟨tree2, hloop⟩ := @c3_loop defs R T tdR tdT jd sk tk fuel
        ⟨none, R, none, none, some ⟨R, none⟩⟩ ⟨R, none⟩
        hRT hR hT hTas hjoin hvia hsk htk rfl rfl
        M 0 [⟨none, T, none, none, some ⟨T, none⟩⟩]
        (.join (.base ⟨R, none⟩) ⟨T, none⟩ ⟨⟨R, none⟩, sk, ⟨T, none⟩, tk⟩) 0
      have hfinal : runJoins defs (fuel + 1)
          (⟨none, R, none, none, none⟩
            :: List.replicate (M + 1) ⟨none, T, none, none, none⟩)
          = .ok (⟨none, R, none, none, some ⟨R, none⟩⟩
              :: ([⟨none, T, none, none, some ⟨T, none⟩⟩]
                  ++ (List.range M).map (fun i =>
                    ⟨none, T, none, none,
                     some ⟨T, some (T ++ "_" ++ Nat.repr (0 + 2 + i))⟩⟩)),
             tree2, [⟨R, 1⟩, ⟨T, 0 + 1 + M⟩], 0) := by
        rw [hrun, List.replicate_succ]
        rw [show joinLoop defs (fuel + 1) [⟨none, R, none, none, some ⟨R, none⟩⟩]
              (⟨none, T, none, none, none⟩
                :: List.replicate M ⟨none, T, none, none, none⟩)
              (.base ⟨R, none⟩) [⟨R, 1⟩] 0
            = (joinOnce defs (fuel + 1)
                ([⟨none, R, none, none, some ⟨R, none⟩⟩]
                  ++ ⟨none, T, none, none, none⟩
                    :: List.replicate M ⟨none, T, none, none, none⟩)
                ⟨none, T, none, none, none⟩ (.base ⟨R, none⟩) [⟨R, 1⟩] 0
              >>= fun r => joinLoop defs (fuel + 1)
                ([⟨none, R, none, none, some ⟨R, none⟩⟩] ++ [r.1])
                (List.replicate M ⟨none, T, none, none, none⟩)
                r.2.1 r.2.2.1 r.2.2.2) from rfl,
          hstep0, exBindOk]
        exact hloop
      refine ⟨_, hfinal, ?_, aliasSeq_nodup T (M + 1)⟩
      simp only [aliasSeq, List.map_cons, List.map_append, List.map_map,
        List.singleton_append]
      refine congrArg₂ _ ?_ (congrArg₂ _ ?_ ?_)
      · simp [jsGetS]
      · simp [jsGetS]
      · apply List.map_congr_left
        intro i hi
        simp only [Function.comp_apply]
        rw [show (0 : Nat) + 2 + i = i + 2 from by omega]
        have hne := underscore_append_ne_empty T (Nat.repr (i + 2))
        simp [jsGetS, hne]


/-- C3 witness: the amended theorem at the `R`/`T` fixture with N = 3. -/
theorem C3_amended_witness :
    ∃ out, runJoins c3state.definitions (5 + 1)
        (⟨none, "R", none, none, none⟩
          :: List.replicate 3 ⟨none, "T", none, none, none⟩) = .ok out
      ∧ out.1.map (fun e => e.model.map (fun m => jsGetS m.als m.table))
          = some "R" :: (aliasSeq "T" 3).map some
      ∧ (aliasSeq "T" 3).Nodup :=
  C3_amended c3state.definitions "R" "T"
    ⟨"R", none, none, none, [],
      [⟨"T", none, "id", "id", none⟩, ⟨"U", none, "id", "id", none⟩]⟩
    ⟨"T", none, none, none, [], []⟩
    ⟨"T", none, "id", "id", none⟩ "id" "id" 5 3
    (by decide) (by rfl) (by rfl) (by rfl) (by rfl) (by rfl) (by rfl)
    (by rfl) (by rfl)

end Qb
